import Mathlib

/-!
Verification of the DocChat backend core (document ingestion and
tenant-isolated retrieval) against its natural-language specification.

The development shallowly embeds the Python sources under `backend/`:

* `backend/services/qdrant.py`   — vector-store operations (store, search,
  delete), modelled over an explicit list of points standing for the Qdrant
  collection;
* `backend/services/embedding.py` — the Hugging Face embedding client with
  its tenacity retry decorator, modelled over an explicit response
  environment, returning a trace of sleep durations (in tenths of a second)
  so that pacing and backoff behaviour is observable;
* `backend/services/supabase.py` — document-metadata updates and the
  retention sweep, modelled over an explicit row/file state;
* `backend/routes/upload.py`     — the ingestion coordinator
  `upload_document`, modelled over an environment fixing the outcome of
  each pipeline step;
* `backend/utils/chunking.py`    — text chunking and its post-filter.

Numeric vectors are modelled as `List Int`: no claim depends on
floating-point arithmetic, only on vector counts, ordering and identity.
-/

namespace DocChat

/-- Embedding vectors. The source uses lists of floats; every verified
property concerns only the number, order and identity of vectors, so
integer components are a faithful carrier. -/
abbrev Vec := List Int

/-! ## Vector store model (backend/services/qdrant.py)

A Qdrant point: a unique id (uuid in the source, modelled as `Nat`), the
payload written by `store_document_chunks`, and the embedding vector. -/

/-- Payload stored with every point, as built in `store_document_chunks`
(qdrant.py lines 145-152). The `created_at` timestamp is modelled as a
`Nat` supplied by the caller. -/
structure Payload where
  document_id : String
  user_id : String
  document_name : String
  chunk_text : String
  chunk_index : Nat
  created_at : Nat
deriving DecidableEq, Repr

/-- One point of the Qdrant collection. -/
structure Point where
  id : Nat
  vector : Vec
  payload : Payload
deriving DecidableEq, Repr

/-- Match clause of a Qdrant `FieldCondition`: `MatchValue` or `MatchAny`,
the two forms used by qdrant.py. -/
inductive MatchClause where
  | value (v : String)
  | anyOf (vs : List String)
deriving DecidableEq, Repr

/-- Qdrant `FieldCondition` on a payload key. The source field `match` is
a Lean keyword, so it is named `mtch` here. -/
structure FieldCondition where
  key : String
  mtch : MatchClause
deriving DecidableEq, Repr

/-- String payload fields addressable by a filter key. The source only
ever filters on `user_id` and `document_id`; the other string fields are
included for completeness, and unknown keys match nothing. -/
def payloadField (p : Payload) : String → Option String
  | "document_id" => some p.document_id
  | "user_id" => some p.user_id
  | "document_name" => some p.document_name
  | "chunk_text" => some p.chunk_text
  | _ => none

/-- Semantics of one `FieldCondition` against a payload, following the
Qdrant server: `MatchValue` is equality, `MatchAny` is membership. -/
def condMatches (c : FieldCondition) (p : Payload) : Bool :=
  match payloadField p c.key, c.mtch with
  | some v, MatchClause.value w => v == w
  | some v, MatchClause.anyOf ws => ws.contains v
  | none, _ => false

/-- Semantics of a Qdrant `Filter(must=conds)`: every condition must hold. -/
def matchesFilter (conds : List FieldCondition) (p : Point) : Bool :=
  conds.all (fun c => condMatches c p.payload)

/-- Filter built by `search_similar_chunks` (qdrant.py lines 186-208).
The mandatory `user_id` condition is placed first; a `document_id`
condition is appended only when `document_ids` is a non-empty list
(Python truthiness makes `None` and `[]` behave alike), using
`MatchValue` for a singleton and `MatchAny` for several ids. -/
def buildSearchFilter (user_id : String) (document_ids : Option (List String)) :
    List FieldCondition :=
  let base : List FieldCondition := [⟨"user_id", MatchClause.value user_id⟩]
  match document_ids with
  | none => base
  | some [] => base
  | some [d] => base ++ [⟨"document_id", MatchClause.value d⟩]
  | some ds => base ++ [⟨"document_id", MatchClause.anyOf ds⟩]

/-- Points selected by the Qdrant server for a search call: the server
considers exactly the points satisfying the filter, ranks them by cosine
score against the query vector, and returns at most `limit` of them. The
score-based ranking is modelled by an abstract `rank` function (depending
on the query vector) that may reorder or select among the filtered points
but, being a ranking, returns only points given to it — theorems assume
exactly that and nothing else about scores. -/
def searchSelectedPoints (rank : Vec → List Point → List Point)
    (store : List Point) (query : Vec) (conds : List FieldCondition)
    (limit : Nat) : List Point :=
  (rank query (store.filter (matchesFilter conds))).take limit

/-- Result rows formatted by `search_similar_chunks`
(qdrant.py lines 220-229). The score is omitted: it is a float used only
for ranking, which the abstract `rank` already captures. -/
structure SearchResult where
  id : Nat
  document_id : String
  document_name : String
  text : String
  chunk_index : Nat
deriving DecidableEq, Repr

/-- Model of `search_similar_chunks` (qdrant.py lines 171-234): build the
filter from `user_id` and `document_ids`, let the server select up to
`limit` ranked matching points, and format the results. -/
def search_similar_chunks (rank : Vec → List Point → List Point)
    (store : List Point) (query_embedding : Vec) (user_id : String)
    (document_ids : Option (List String) := none) (limit : Nat := 5) :
    List SearchResult :=
  (searchSelectedPoints rank store query_embedding
      (buildSearchFilter user_id document_ids) limit).map
    (fun p => ⟨p.id, p.payload.document_id, p.payload.document_name,
      p.payload.chunk_text, p.payload.chunk_index⟩)

/-! ## store_document_chunks (qdrant.py lines 125-168) -/

/-- Points built by `store_document_chunks` (qdrant.py lines 138-154):
`zip(chunks, embeddings)` pairs the two lists, `enumerate` numbers the
pairs from 0, and each pair becomes one point. The per-point `uuid4` id
generation is modelled by the injected `mkId` function on the pair index,
and `datetime.utcnow()` by the `now` timestamp. -/
def storePoints (mkId : Nat → Nat) (now : Nat)
    (document_id user_id document_name : String)
    (chunks : List String) (embeddings : List Vec) : List Point :=
  (chunks.zip embeddings).enum.map
    (fun ie => ⟨mkId ie.1, ie.2.2,
      ⟨document_id, user_id, document_name, ie.2.1, ie.1, now⟩⟩)

/-- Upsert loop of `store_document_chunks` (qdrant.py lines 156-163): the
points are written in batches of `batchSize` (100 in the source); each
`client.upsert` of freshly generated ids appends its batch to the
collection. -/
def upsertBatched (store : List Point) (pts : List Point) (batchSize : Nat) :
    List Point :=
  match pts, batchSize with
  | [], _ => store
  | _ :: _, 0 => store
  | pts@(_ :: _), b + 1 =>
      upsertBatched (store ++ pts.take (b + 1)) (pts.drop (b + 1)) (b + 1)
termination_by pts.length
decreasing_by simp_all [List.length_drop]; omega

/-- Model of `store_document_chunks`: ensure-collection is a no-op on the
modelled state, the zipped points are upserted in batches of 100, and the
number of points built is returned (qdrant.py line 165). -/
def store_document_chunks (store : List Point) (mkId : Nat → Nat) (now : Nat)
    (document_id user_id document_name : String)
    (chunks : List String) (embeddings : List Vec) : List Point × Nat :=
  (upsertBatched store
      (storePoints mkId now document_id user_id document_name chunks embeddings) 100,
   (storePoints mkId now document_id user_id document_name chunks embeddings).length)

/-! ## delete_document_vectors (qdrant.py lines 237-270) -/

/-- Filter used by `delete_document_vectors` (qdrant.py lines 243-248):
both `document_id == D` and `user_id == T` must match. -/
def delMatch (document_id user_id : String) (p : Point) : Bool :=
  p.payload.document_id == document_id && p.payload.user_id == user_id

/-- Scroll phase of `delete_document_vectors` (qdrant.py lines 242-258):
collect the ids of points matching the filter, capped at the
`limit=10000` passed to `client.scroll`. -/
def scrollMatchingIds (store : List Point) (document_id user_id : String) :
    List Nat :=
  ((store.filter (delMatch document_id user_id)).take 10000).map Point.id

/-- Model of `delete_document_vectors`: scroll for the matching point ids,
delete exactly those ids (a no-op when the id list is empty, matching the
guarded `client.delete` call), and return how many ids were collected
(qdrant.py line 267). -/
def delete_document_vectors (store : List Point) (document_id user_id : String) :
    List Point × Nat :=
  (store.filter (fun p =>
      !((scrollMatchingIds store document_id user_id).contains p.id)),
   (scrollMatchingIds store document_id user_id).length)

/-! ## Embedding client (backend/services/embedding.py)

The client is modelled over an explicit environment mapping each text to
the HTTP response the Hugging Face endpoint returns for it. Every
function additionally returns the trace of `asyncio.sleep` durations it
performed, in tenths of a second (so 0.1 s = 1, 1 s = 10, 4 s = 40,
20 s = 200), making pacing, warm-up cooldown and backoff observable. -/

/-- JSON body of a 200 response, as far as `get_embeddings` inspects it:
a non-empty array whose first element is a number (a flat embedding), an
array of arrays, or anything else. -/
inductive HFBody where
  | arrNum (v : Vec)
  | arrArr (vs : List Vec)
  | otherJson
deriving DecidableEq, Repr

/-- HTTP response of the embedding endpoint for one text. -/
inductive HFResponse where
  | ok200 (body : HFBody)
  | loading503
  | otherStatus (code : Nat) (text : String)
deriving DecidableEq, Repr

/-- Shape handling of a 200 body (embedding.py lines 137-148): a
non-empty flat numeric array is used directly; a non-empty nested array
contributes its first element (the code falls back to `[]` when that
first element is itself empty); an empty or non-array body raises. -/
def parseBody : HFBody → Except String Vec
  | HFBody.arrNum [] => Except.error "Unexpected response format"
  | HFBody.arrNum v => Except.ok v
  | HFBody.arrArr [] => Except.error "Unexpected response format"
  | HFBody.arrArr (v :: _) => Except.ok v
  | HFBody.otherJson => Except.error "Unexpected response format"

/-- Per-text loop of `get_embeddings` (embedding.py lines 127-160). The
`multi` flag is `len(texts) > 1` for the original call; when set, a 0.1 s
pacing sleep follows every successfully processed text, including the
last. A 503 response sleeps 20 s and then raises; any raise aborts the
whole call (the `except` clauses sit outside the loop) with the partial
results discarded and the sleeps so far already performed. -/
def embLoop (env : String → HFResponse) (multi : Bool) :
    List String → Except String (List Vec) × List Nat
  | [] => (Except.ok [], [])
  | t :: rest =>
    match env t with
    | HFResponse.ok200 body =>
      match parseBody body with
      | Except.error e =>
          (Except.error ("Embedding generation failed: " ++ e), [])
      | Except.ok v =>
        let pace : List Nat := if multi then [1] else []
        match embLoop env multi rest with
        | (Except.ok vs, log) => (Except.ok (v :: vs), pace ++ log)
        | (Except.error e, log) => (Except.error e, pace ++ log)
    | HFResponse.loading503 =>
        (Except.error "Embedding generation failed: Model is loading, retrying...",
         [200])
    | HFResponse.otherStatus code text =>
        (Except.error ("Embedding generation failed: HF API error: "
          ++ toString code ++ " - " ++ text), [])

/-- One attempt of `get_embeddings` (embedding.py lines 115-167), before
the tenacity retry decorator: an empty input returns `[]` immediately
(line 119), otherwise the per-text loop runs with the pacing flag
`len(texts) > 1`. -/
def getEmbeddingsAttempt (env : String → HFResponse) (texts : List String) :
    Except String (List Vec) × List Nat :=
  match texts with
  | [] => (Except.ok [], [])
  | _ => embLoop env (texts.length > 1) texts

/-- Tenacity `wait_exponential(multiplier=1, min=4, max=10)` after the
`n`-th failed attempt: `1 * 2 ^ n` seconds clamped to [4 s, 10 s], in
tenths of a second. -/
def backoffWait (n : Nat) : Nat :=
  max 40 (min (10 * 2 ^ n) 100)

/-- Model of the decorated `get_embeddings` with
`@retry(stop=stop_after_attempt(3), wait=wait_exponential(...))`
(embedding.py line 114): up to three attempts, the exponential backoff
waited between consecutive attempts, and after the third failure a
terminal retry error carrying the last underlying error. Returns the
result, the full sleep trace, and the number of attempts made. -/
def get_embeddings (env : String → HFResponse) (texts : List String) :
    Except String (List Vec) × List Nat × Nat :=
  match getEmbeddingsAttempt env texts with
  | (Except.ok v, log1) => (Except.ok v, log1, 1)
  | (Except.error _, log1) =>
    match getEmbeddingsAttempt env texts with
    | (Except.ok v, log2) =>
        (Except.ok v, log1 ++ [backoffWait 1] ++ log2, 2)
    | (Except.error _, log2) =>
      match getEmbeddingsAttempt env texts with
      | (Except.ok v, log3) =>
          (Except.ok v,
           log1 ++ [backoffWait 1] ++ log2 ++ [backoffWait 2] ++ log3, 3)
      | (Except.error e, log3) =>
          (Except.error ("RetryError: " ++ e),
           log1 ++ [backoffWait 1] ++ log2 ++ [backoffWait 2] ++ log3, 3)

/-- Batch loop of `get_batch_embeddings` (embedding.py lines 182-193),
parameterised by the per-group embedding call it makes (the source fixes
it to `get_embeddings`; the parameter makes the absence of any per-group
count check in this loop expressible). Groups of `bp + 1` texts are
processed strictly sequentially; whatever vectors a group call returns
are concatenated onto the result without any length check; a 1 s pacing
sleep (`if i + batch_size < len(texts)`) separates a group from the next
one but never follows the last. Also returns the number of group calls
made. -/
def batchLoop (embed : List String → Except String (List Vec) × List Nat × Nat)
    (bp : Nat) : List String → Except String (List Vec) × List Nat × Nat
  | [] => (Except.ok [], [], 0)
  | t :: ts =>
    match embed ((t :: ts).take (bp + 1)) with
    | (Except.error e, log, _) => (Except.error e, log, 1)
    | (Except.ok vs, log, _) =>
      let rest := (t :: ts).drop (bp + 1)
      if rest.isEmpty then (Except.ok vs, log, 1)
      else
        match batchLoop embed bp rest with
        | (res, log2, g) =>
            (res.map (fun ws => vs ++ ws), log ++ [10] ++ log2, g + 1)
termination_by texts => texts.length
decreasing_by
  simp only [rest, List.length_drop, List.length_cons]
  omega

/-- Model of `get_batch_embeddings` (embedding.py lines 178-193):
`range(0, len(texts), batch_size)` with step 0 raises immediately in
Python, and with a positive step partitions the texts into groups of
`batch_size` handed to `get_embeddings` sequentially. -/
def get_batch_embeddings (env : String → HFResponse) (texts : List String)
    (batch_size : Nat := 10) : Except String (List Vec) × List Nat × Nat :=
  match batch_size with
  | 0 => (Except.error "ValueError: range() arg 3 must not be zero", [], 0)
  | bp + 1 => batchLoop (get_embeddings env) bp texts

/-! ## Metadata store (backend/services/supabase.py) -/

/-- Projection of a `documents` row onto the columns `update_document_status`
touches and the claims concern: `status` and `error_message`. The
`updated_at` refresh touches neither. -/
structure DocRecord where
  status : String
  error_message : Option String
deriving DecidableEq, Repr

/-- Model of `update_document_status` (supabase.py lines 46-62) applied to
one row: the UPDATE payload always contains `status` (and `updated_at`),
and contains `error_message` only when the argument is truthy in Python —
neither `None` nor the empty string. A SQL UPDATE leaves columns absent
from the payload untouched, so an omitted `error_message` keeps its
previous value. -/
def update_document_status (rec : DocRecord) (status : String)
    (error_message : Option String := none) : DocRecord :=
  { status := status,
    error_message :=
      match error_message with
      | some m => if m == "" then rec.error_message else some m
      | none => rec.error_message }

/-- Row of the `documents` table as read by `cleanup_old_documents`:
identity, owner, storage path and creation timestamp (modelled as `Nat`). -/
structure DocRow where
  id : String
  user_id : String
  file_path : String
  created_at : Nat
deriving DecidableEq, Repr

/-- External-store state the retention sweep acts on: the storage-bucket
files and the metadata rows. -/
structure SweepState where
  files : List String
  rows : List DocRow
deriving DecidableEq, Repr

/-- Failure environment for one sweep: which storage paths
`delete_file_from_storage` raises on, and which document ids
`delete_document_metadata` raises on. -/
structure SweepEnv where
  storageFails : String → Bool
  metadataFails : String → Bool

/-- Loop body of `cleanup_old_documents` (supabase.py lines 145-157) for
one old document. The single `try` wraps both deletions: when the
storage deletion raises, the `except` catches it and `continue`s, so the
metadata deletion of that document is skipped; when the storage deletion
succeeds but the metadata deletion raises, the file is gone, the row
stays, and the counter is not incremented; when both succeed, the row is
deleted and the counter incremented. -/
def sweepStep (env : SweepEnv) (acc : SweepState × Nat) (doc : DocRow) :
    SweepState × Nat :=
  if env.storageFails doc.file_path then
    acc
  else if env.metadataFails doc.id then
    ({ acc.1 with files := acc.1.files.erase doc.file_path }, acc.2)
  else
    ({ files := acc.1.files.erase doc.file_path,
       rows := acc.1.rows.filter
         (fun r => !(r.id == doc.id && r.user_id == doc.user_id)) },
     acc.2 + 1)

/-- Model of `cleanup_old_documents` (supabase.py lines 132-162): select
the rows strictly older than the cutoff, then run the per-document loop
over that snapshot, returning the final state and the count of documents
whose metadata deletion succeeded. -/
def cleanup_old_documents (env : SweepEnv) (st : SweepState) (cutoff : Nat) :
    SweepState × Nat :=
  let olds := st.rows.filter (fun r => r.created_at < cutoff)
  olds.foldl (sweepStep env) (st, 0)

/-! ## Chunker (backend/utils/chunking.py) -/

/-- Model of `chunk_text` (chunking.py lines 67-83). The
`RecursiveCharacterTextSplitter` from langchain is an external
collaborator; its output is abstracted by the `split` parameter, and the
post-filter keeps exactly the segments whose trimmed length is strictly
greater than 50 characters (line 81). -/
def chunk_text (split : String → List String) (text : String) : List String :=
  (split text).filter (fun c => c.trim.length > 50)

/-- Model of `process_document` (chunking.py lines 86-101) downstream of
text extraction: given the extracted text, fail when it is empty after
stripping, chunk it, and fail when every segment was filtered out. -/
def process_document (split : String → List String) (text : String) :
    Except String (List String) :=
  if text.trim == "" then
    Except.error "No text could be extracted from the document"
  else
    match chunk_text split text with
    | [] => Except.error "No valid chunks could be created from the document"
    | chunks => Except.ok chunks

/-! ## Ingestion coordinator (backend/routes/upload.py, lines 15-99)

The coordinator is modelled over an environment fixing the outcome of
each pipeline step it calls. Each error string stands for the `str(e)`
of the exception the step raised; every service in the source wraps its
failures in a message with a non-empty prefix
("Failed to download file from storage: ...",
"Error extracting text from ...", "Embedding generation failed: ...",
"Failed to store document chunks: ..."), so these strings are non-empty,
which theorems take as a hypothesis. Metadata-status updates themselves
are modelled as succeeding: the claims scope failures to the pipeline
steps, not to the metadata store. -/

/-- Outcome environment of one `upload_document` call. -/
structure UploadEnv where
  /-- Result of `verify_user_owns_document`. -/
  userOwns : Bool
  /-- Result of `get_document_metadata`: `none` is not found, otherwise
  the document name and file type used by the pipeline. -/
  metadata : Option (String × String)
  /-- Result of `download_file_from_storage`: the temp file path, or the
  raised error. -/
  download : Except String String
  /-- Result of `process_document` on the downloaded file (extraction
  plus chunking). -/
  processResult : Except String (List String)
  /-- Result of `get_batch_embeddings` on the chunks. -/
  embedResult : Except String (List Vec)
  /-- Result of `store_document_chunks`: the stored count, or the raised
  error. -/
  storeResult : Except String Nat

/-- Response returned by `upload_document`: an HTTP error propagated from
an `HTTPException`, or an `APIResponse` with its success flag and the
final status message. -/
inductive UploadOutcome where
  | httpError (code : Nat)
  | response (success : Bool) (message : String)
deriving DecidableEq, Repr

/-- Observable result of one `upload_document` call: the HTTP-level
outcome, the final metadata record of the document, and whether a
downloaded temporary file is still on disk afterwards. -/
structure UploadResult where
  outcome : UploadOutcome
  doc : DocRecord
  tempFileRemains : Bool
deriving DecidableEq, Repr

/-- Error path shared by all pipeline failures (upload.py lines 88-99):
the outer `except Exception` sets the status to `error` with `str(e)` and
returns a failure `APIResponse`. -/
def uploadFail (doc : DocRecord) (msg : String) (tempRemains : Bool) :
    UploadResult :=
  ⟨UploadOutcome.response false "Failed to process document",
   update_document_status doc "error" (some msg), tempRemains⟩

/-- Model of `upload_document` (upload.py lines 15-99). Control flow of
the source: ownership and existence checks raise `HTTPException` (403 /
404) before anything else; the status is set to `processing`; the file
is downloaded; the inner `try` runs extraction/chunking, the empty-chunk
check, embedding, the aggregate count check, and the vector-store write,
with a `finally` that removes the temporary file on every exit of the
inner block; the outer `except Exception` records the failure as status
`error` with the error text. On full success the status is set to
`completed` and a success response returned. -/
def upload_document (env : UploadEnv) (doc : DocRecord) : UploadResult :=
  if !env.userOwns then
    ⟨UploadOutcome.httpError 403, doc, false⟩
  else
    match env.metadata with
    | none => ⟨UploadOutcome.httpError 404, doc, false⟩
    | some (_name, _fileType) =>
      let doc1 := update_document_status doc "processing"
      match env.download with
      | Except.error e => uploadFail doc1 e false
      | Except.ok _tempPath =>
        match env.processResult with
        | Except.error e => uploadFail doc1 e false
        | Except.ok chunks =>
          if chunks.isEmpty then
            uploadFail doc1 "No text chunks could be extracted from the document" false
          else
            match env.embedResult with
            | Except.error e => uploadFail doc1 e false
            | Except.ok embeddings =>
              if embeddings.length != chunks.length then
                uploadFail doc1 "Mismatch between number of chunks and embeddings" false
              else
                match env.storeResult with
                | Except.error e => uploadFail doc1 e false
                | Except.ok storedCount =>
                  ⟨UploadOutcome.response true
                      ("Document processed successfully. "
                        ++ toString storedCount ++ " chunks stored."),
                   update_document_status doc1 "completed",
                   false⟩

/-- Success condition of the pipeline steps of an `UploadEnv`: the
download, extraction/chunking (with at least one chunk), embedding (with
matching count) and store write all succeed. -/
def UploadEnv.pipelineOk (env : UploadEnv) : Prop :=
  (∃ p, env.download = Except.ok p) ∧
  (∃ chunks, env.processResult = Except.ok chunks ∧ chunks ≠ [] ∧
    ∃ embeddings, env.embedResult = Except.ok embeddings ∧
      embeddings.length = chunks.length) ∧
  (∃ n, env.storeResult = Except.ok n)

/-! ## Auxiliary definitions used by the theorems -/

/-- Truthiness of the optional `error_message` argument in Python:
neither `None` nor the empty string. -/
def truthyMsg : Option String → Bool
  | some m => m != ""
  | none => false

/-- Provider environment that always answers 503 (model warming up). -/
def env503 : String → HFResponse := fun _ => HFResponse.loading503

/-- Provider environment in which every text embeds successfully, with
`f` giving the (non-empty) embedding of each text. -/
def envOk (f : String → Vec) : String → HFResponse :=
  fun t => HFResponse.ok200 (HFBody.arrNum (f t))

/-- Sleep trace of one successful `get_embeddings` attempt: a 0.1 s pace
after every text when more than one text is present. -/
def embPaceLog (ts : List String) : List Nat :=
  if ts.length > 1 then List.replicate ts.length 1 else []

/-- Uniform store used to exercise the scroll cap of
`delete_document_vectors`: 10,001 points, all of them belonging to
document `d` of tenant `u`, with distinct ids. -/
def bigStore : List Point :=
  (List.range 10001).map (fun i => ⟨i, [], ⟨"d", "u", "n", "t", i, 0⟩⟩)

/-! ## Shared helper lemmas -/

/-- Batched upsert of freshly generated points is concatenation. -/
theorem upsertBatched_eq_append (pts : List Point) (store : List Point) (b : Nat) :
    upsertBatched store pts (b + 1) = store ++ pts := by
  match pts with
  | [] => simp [upsertBatched]
  | p :: ps =>
    rw [upsertBatched]
    rw [upsertBatched_eq_append ((p :: ps).drop (b + 1)) (store ++ (p :: ps).take (b + 1)) b]
    rw [List.append_assoc, List.take_append_drop]
termination_by pts.length
decreasing_by simp [List.length_drop]; omega

/-! ## C1 — mandatory tenant filter in search -/

/-- C1: every filter constructed by `search_similar_chunks` for tenant `T`
contains the mandatory condition `user_id == T` — for absent, empty,
singleton and multi-element `document_ids` alike — and consequently, for
every query vector, every limit and every score ranking the server may
apply, no point selected by the search belongs to a tenant other than
`T`. -/
theorem search_never_leaks_other_tenant
    (rank : Vec → List Point → List Point)
    (hrank : ∀ q l p, p ∈ rank q l → p ∈ l)
    (store : List Point) (query : Vec) (user_id : String)
    (document_ids : Option (List String)) (limit : Nat) :
    (FieldCondition.mk "user_id" (MatchClause.value user_id) ∈
      buildSearchFilter user_id document_ids) ∧
    (∀ p ∈ searchSelectedPoints rank store query
        (buildSearchFilter user_id document_ids) limit,
      p.payload.user_id = user_id) := by
  have hmem : FieldCondition.mk "user_id" (MatchClause.value user_id) ∈
      buildSearchFilter user_id document_ids := by
    cases document_ids with
    | none => simp [buildSearchFilter]
    | some ds =>
      cases ds with
      | nil => simp [buildSearchFilter]
      | cons d rest => cases rest <;> simp [buildSearchFilter]
  refine ⟨hmem, ?_⟩
  intro p hp
  have h1 : p ∈ rank query
      (store.filter (matchesFilter (buildSearchFilter user_id document_ids))) :=
    List.mem_of_mem_take hp
  have h2 := hrank _ _ _ h1
  have h3 : matchesFilter (buildSearchFilter user_id document_ids) p = true :=
    (List.mem_filter.mp h2).2
  have hc := (List.all_eq_true.mp h3) _ hmem
  simpa [condMatches, payloadField] using hc

/-- Witness for C1 at a concrete one-point store with the identity
ranking. -/
theorem search_never_leaks_other_tenant_witness :
    (FieldCondition.mk "user_id" (MatchClause.value "u1") ∈
      buildSearchFilter "u1" none) ∧
    (∀ p ∈ searchSelectedPoints (fun _ l => l)
        [⟨1, [], ⟨"d1", "u1", "doc", "some text", 0, 0⟩⟩] []
        (buildSearchFilter "u1" none) 5,
      p.payload.user_id = "u1") :=
  search_never_leaks_other_tenant (fun _ l => l) (fun _ _ _ h => h) _ _ _ _ _

/-! ## C10 — zip-based silent truncation in store_document_chunks -/

/-- C10: `store_document_chunks` pairs chunks with embeddings via `zip`,
so a call with differing list lengths writes exactly
`min (length chunks) (length embeddings)` points to the collection and
returns that count, silently dropping the surplus of the longer list
instead of raising an error. -/
theorem store_document_chunks_truncates_via_zip
    (store : List Point) (mkId : Nat → Nat) (now : Nat)
    (document_id user_id document_name : String)
    (chunks : List String) (embeddings : List Vec)
    (_h : chunks.length ≠ embeddings.length) :
    (store_document_chunks store mkId now document_id user_id document_name
        chunks embeddings).2 = min chunks.length embeddings.length ∧
    (store_document_chunks store mkId now document_id user_id document_name
        chunks embeddings).1.length =
      store.length + min chunks.length embeddings.length := by
  unfold store_document_chunks
  constructor
  · simp [storePoints]
  · rw [show (100 : Nat) = 99 + 1 from rfl, upsertBatched_eq_append]
    simp [storePoints]

/-- Witness for C10: one chunk, zero embeddings — zero points written,
zero returned, no error. -/
theorem store_document_chunks_truncates_via_zip_witness :
    (store_document_chunks [] (fun i => i) 0 "d" "u" "n" ["chunk"] []).2
        = min 1 0 ∧
    (store_document_chunks [] (fun i => i) 0 "d" "u" "n" ["chunk"] []).1.length
        = 0 + min 1 0 := by
  simpa using store_document_chunks_truncates_via_zip [] (fun i => i) 0
    "d" "u" "n" ["chunk"] [] (by decide)

/-! ## C9 — the error_message / status invariant -/

/-- Counterexample for C9: the reprocess sequence named by the claim,
error → processing → completed, leaves the stale `error_message` in
place, because the UPDATE payload of `update_document_status` omits the
`error_message` column whenever no truthy message is passed and therefore
never clears it. After the sequence the status is `completed` (not
`error`) while `error_message` is still present. -/
theorem update_document_status_keeps_stale_error_message :
    (update_document_status (update_document_status
        (update_document_status (update_document_status
            ⟨"received", none⟩ "processing")
          "error" (some "boom")) "processing") "completed")
      = ⟨"completed", some "boom"⟩ ∧ "completed" ≠ "error" := by
  constructor
  · rfl
  · decide

/-- C9 amended: `update_document_status` sets `error_message` only when
given a truthy (non-`None`, non-empty) message and never clears it, so
after any sequence of updates the message is present exactly when the
record started with one or some update in the sequence carried a truthy
message — regardless of the statuses written, including
error → processing → completed reprocess chains. The claimed invariant
(`error_message` present only when status is `error`) therefore holds
only for documents that never recorded a truthy message. -/
theorem update_document_status_error_message_presence
    (r : DocRecord) (updates : List (String × Option String)) :
    (updates.foldl (fun rec u => update_document_status rec u.1 u.2) r).error_message.isSome
      = (r.error_message.isSome || updates.any (fun u => truthyMsg u.2)) := by
  induction updates generalizing r with
  | nil => simp
  | cons u us ih =>
    rw [List.foldl_cons, ih]
    have hstep : (update_document_status r u.1 u.2).error_message.isSome
        = (r.error_message.isSome || truthyMsg u.2) := by
      cases hm : u.2 with
      | none => simp [update_document_status, truthyMsg, hm]
      | some m =>
        by_cases hme : m = "" <;>
          simp [update_document_status, truthyMsg, hm, hme]
    rw [hstep, List.any_cons, Bool.or_assoc]

/-! ## C4 — best-effort structure of the retention sweep -/

/-- Step lemma: a raising storage deletion leaves state and counter
untouched (the `except` catches and continues). -/
theorem sweepStep_storage_fail (env : SweepEnv) (acc : SweepState × Nat)
    (d : DocRow) (hs : env.storageFails d.file_path = true) :
    sweepStep env acc d = acc := by
  simp [sweepStep, hs]

/-- Step lemma: a raising metadata deletion removes the file but keeps
the row and the counter. -/
theorem sweepStep_metadata_fail (env : SweepEnv) (acc : SweepState × Nat)
    (d : DocRow) (hs : env.storageFails d.file_path = false)
    (hm : env.metadataFails d.id = true) :
    sweepStep env acc d =
      ({ acc.1 with files := acc.1.files.erase d.file_path }, acc.2) := by
  simp [sweepStep, hs, hm]

/-- Step lemma: when both deletions succeed, the file and the matching
rows are removed and the counter incremented. -/
theorem sweepStep_ok (env : SweepEnv) (acc : SweepState × Nat)
    (d : DocRow) (hs : env.storageFails d.file_path = false)
    (hm : env.metadataFails d.id = false) :
    sweepStep env acc d =
      ({ files := acc.1.files.erase d.file_path,
         rows := acc.1.rows.filter
           (fun r => !(r.id == d.id && r.user_id == d.user_id)) },
       acc.2 + 1) := by
  simp [sweepStep, hs, hm]

/-- Deletion counter of the sweep loop: it counts exactly the processed
documents for which both the storage deletion and the metadata deletion
succeed, independently of the store state. -/
theorem sweep_count (env : SweepEnv) :
    ∀ (l : List DocRow) (st : SweepState) (c : Nat),
      (l.foldl (sweepStep env) (st, c)).2 =
        c + (l.filter (fun d =>
          !env.storageFails d.file_path && !env.metadataFails d.id)).length := by
  intro l
  induction l with
  | nil => simp
  | cons d ds ih =>
    intro st c
    rw [List.foldl_cons]
    by_cases hs : env.storageFails d.file_path = true
    · rw [sweepStep_storage_fail env _ _ hs, ih st c]
      simp [List.filter_cons, hs]
    · rw [Bool.not_eq_true] at hs
      by_cases hm : env.metadataFails d.id = true
      · rw [sweepStep_metadata_fail env _ _ hs hm, ih _ _]
        simp [List.filter_cons, hs, hm]
      · rw [Bool.not_eq_true] at hm
        rw [sweepStep_ok env _ _ hs hm, ih _ _]
        simp [List.filter_cons, hs, hm]
        omega

/-- A row not keyed like any fully-succeeding processed document survives
the sweep loop. -/
theorem sweep_keep (env : SweepEnv) (r : DocRow) :
    ∀ (l : List DocRow) (st : SweepState) (c : Nat),
      r ∈ st.rows →
      (∀ d ∈ l, env.storageFails d.file_path = true ∨
        env.metadataFails d.id = true ∨ ¬(d.id = r.id ∧ d.user_id = r.user_id)) →
      r ∈ ((l.foldl (sweepStep env) (st, c)).1).rows := by
  intro l
  induction l with
  | nil => intro st c hr _; simpa using hr
  | cons d ds ih =>
    intro st c hr hl
    rw [List.foldl_cons]
    have hd := hl d (List.mem_cons_self d ds)
    have hds : ∀ x ∈ ds, env.storageFails x.file_path = true ∨
        env.metadataFails x.id = true ∨ ¬(x.id = r.id ∧ x.user_id = r.user_id) :=
      fun x hx => hl x (List.mem_cons_of_mem d hx)
    by_cases hs : env.storageFails d.file_path = true
    · rw [sweepStep_storage_fail env _ _ hs]
      exact ih st c hr hds
    · rw [Bool.not_eq_true] at hs
      by_cases hm : env.metadataFails d.id = true
      · rw [sweepStep_metadata_fail env _ _ hs hm]
        exact ih _ _ (by simpa using hr) hds
      · rw [Bool.not_eq_true] at hm
        have hkey : ¬(d.id = r.id ∧ d.user_id = r.user_id) := by
          rcases hd with h | h | h
          · rw [hs] at h; cases h
          · rw [hm] at h; cases h
          · exact h
        rw [sweepStep_ok env _ _ hs hm]
        refine ih _ _ ?_ hds
        simp only [List.mem_filter]
        refine ⟨hr, ?_⟩
        by_cases h1 : r.id = d.id
        · by_cases h2 : r.user_id = d.user_id
          · exact absurd ⟨h1.symm, h2.symm⟩ hkey
          · simp [h2]
        · simp [h1]

/-- Rows are never added back: a row absent from the state stays absent
through the sweep loop. -/
theorem sweep_mono (env : SweepEnv) (r : DocRow) :
    ∀ (l : List DocRow) (st : SweepState) (c : Nat),
      r ∉ st.rows →
      r ∉ ((l.foldl (sweepStep env) (st, c)).1).rows := by
  intro l
  induction l with
  | nil => intro st c hr; simpa using hr
  | cons d ds ih =>
    intro st c hr
    rw [List.foldl_cons]
    by_cases hs : env.storageFails d.file_path = true
    · rw [sweepStep_storage_fail env _ _ hs]
      exact ih st c hr
    · rw [Bool.not_eq_true] at hs
      by_cases hm : env.metadataFails d.id = true
      · rw [sweepStep_metadata_fail env _ _ hs hm]
        exact ih _ _ (by simpa using hr)
      · rw [Bool.not_eq_true] at hm
        rw [sweepStep_ok env _ _ hs hm]
        refine ih _ _ ?_
        intro hmem
        exact hr (List.mem_of_mem_filter hmem)

/-- A processed document whose storage and metadata deletions both
succeed has its row removed by the sweep loop. -/
theorem sweep_remove (env : SweepEnv) (r : DocRow)
    (hs : env.storageFails r.file_path = false)
    (hm : env.metadataFails r.id = false) :
    ∀ (l : List DocRow) (st : SweepState) (c : Nat),
      r ∈ l →
      r ∉ ((l.foldl (sweepStep env) (st, c)).1).rows := by
  intro l
  induction l with
  | nil => intro st c hr; cases hr
  | cons d ds ih =>
    intro st c hr
    rw [List.foldl_cons]
    rcases List.mem_cons.mp hr with h | h
    · subst h
      rw [sweepStep_ok env _ _ hs hm]
      refine sweep_mono env r ds _ _ ?_
      intro hmem
      have := (List.mem_filter.mp hmem).2
      simp at this
    · by_cases hsd : env.storageFails d.file_path = true
      · rw [sweepStep_storage_fail env _ _ hsd]
        exact ih st c h
      · rw [Bool.not_eq_true] at hsd
        by_cases hmd : env.metadataFails d.id = true
        · rw [sweepStep_metadata_fail env _ _ hsd hmd]
          exact ih _ _ h
        · rw [Bool.not_eq_true] at hmd
          rw [sweepStep_ok env _ _ hsd hmd]
          exact ih _ _ h

/-- Counterexample for C4: one document (`d1`, file `f1`) older than the
cutoff, in an environment where deleting `f1` from the storage bucket
raises. The claim says the metadata deletion is still performed; in the
code the single `try` wraps both deletions and the `except ... continue`
skips the metadata deletion, so the row of `d1` survives the sweep and
the deleted count is 0. -/
theorem cleanup_skips_metadata_on_storage_failure :
    cleanup_old_documents
        ⟨fun p => p == "f1", fun _ => false⟩
        ⟨["f1"], [⟨"d1", "u1", "f1", 0⟩]⟩ 5
      = (⟨["f1"], [⟨"d1", "u1", "f1", 0⟩]⟩, 0) := by
  decide

/-- C4 amended: the retention sweep is best-effort per document, not per
step — a failing storage deletion makes the loop skip that document
entirely (its metadata row is retained), while the sweep still continues:
every other old document whose two deletions succeed has its row removed,
and the returned count is exactly the number of old documents for which
both deletions succeeded. The `hkeys` hypothesis reflects that
`(id, user_id)` identifies a row in the `documents` table. -/
theorem cleanup_best_effort_per_document
    (env : SweepEnv) (st : SweepState) (cutoff : Nat)
    (hkeys : (st.rows.map (fun r => (r.id, r.user_id))).Nodup) :
    (∀ d ∈ st.rows.filter (fun r => r.created_at < cutoff),
      env.storageFails d.file_path = true →
        d ∈ ((cleanup_old_documents env st cutoff).1).rows) ∧
    (∀ d ∈ st.rows.filter (fun r => r.created_at < cutoff),
      env.storageFails d.file_path = false →
        env.metadataFails d.id = false →
          d ∉ ((cleanup_old_documents env st cutoff).1).rows) ∧
    (cleanup_old_documents env st cutoff).2 =
      ((st.rows.filter (fun r => r.created_at < cutoff)).filter (fun d =>
        !env.storageFails d.file_path && !env.metadataFails d.id)).length := by
  refine ⟨?_, ?_, ?_⟩
  · intro d hd hfail
    refine sweep_keep env d _ _ _ (List.mem_of_mem_filter hd) ?_
    intro x hx
    by_cases hxs : env.storageFails x.file_path = true
    · exact Or.inl hxs
    · refine Or.inr (Or.inr ?_)
      rintro ⟨h1, h2⟩
      have hxd : x = d := by
        have hinj := List.inj_on_of_nodup_map hkeys
        exact hinj (List.mem_of_mem_filter hx) (List.mem_of_mem_filter hd)
          (by simp [h1, h2])
      rw [hxd] at hxs
      exact hxs hfail
  · intro d hd hs hm
    exact sweep_remove env d hs hm _ _ _ hd
  · show (List.foldl (sweepStep env) (st, 0)
        (st.rows.filter (fun r => r.created_at < cutoff))).2 = _
    rw [sweep_count env _ st 0, Nat.zero_add]

/-- Witness for C4 amended: two old documents, the first with a raising
storage deletion (row kept), the second fully succeeding (row removed,
counted once). -/
theorem cleanup_best_effort_per_document_witness :
    ((⟨"d1", "u1", "f1", 0⟩ : DocRow) ∈
      ((cleanup_old_documents ⟨fun p => p == "f1", fun _ => false⟩
          ⟨["f1", "f2"], [⟨"d1", "u1", "f1", 0⟩, ⟨"d2", "u2", "f2", 1⟩]⟩ 5).1).rows) ∧
    ((⟨"d2", "u2", "f2", 1⟩ : DocRow) ∉
      ((cleanup_old_documents ⟨fun p => p == "f1", fun _ => false⟩
          ⟨["f1", "f2"], [⟨"d1", "u1", "f1", 0⟩, ⟨"d2", "u2", "f2", 1⟩]⟩ 5).1).rows) := by
  have h := cleanup_best_effort_per_document
    ⟨fun p => p == "f1", fun _ => false⟩
    ⟨["f1", "f2"], [⟨"d1", "u1", "f1", 0⟩, ⟨"d2", "u2", "f2", 1⟩]⟩ 5 (by decide)
  exact ⟨h.1 ⟨"d1", "u1", "f1", 0⟩ (by decide) (by decide),
         h.2.1 ⟨"d2", "u2", "f2", 1⟩ (by decide) (by decide) (by decide)⟩

/-! ## C8 — deletion precision of delete_document_vectors -/

/-- C8 amended: as long as at most 10,000 points match — the `limit`
passed to `client.scroll`, beyond which the scan silently truncates —
`delete_document_vectors` removes exactly the points whose payload
matches `(document_id == D AND user_id == T)`, leaves every other
tenant's and document's point unchanged, and returns the number of
points actually deleted, which is 0 (not an error) when nothing matches.
Point ids are unique in the store (`uuid4` per point). -/
theorem delete_document_vectors_precise_below_cap
    (store : List Point) (D T : String)
    (hnodup : (store.map Point.id).Nodup)
    (hcap : (store.filter (delMatch D T)).length ≤ 10000) :
    (delete_document_vectors store D T).2 =
      (store.filter (delMatch D T)).length ∧
    (delete_document_vectors store D T).1 =
      store.filter (fun p => !(delMatch D T p)) := by
  have htake : (store.filter (delMatch D T)).take 10000
      = store.filter (delMatch D T) := List.take_of_length_le hcap
  have hids : scrollMatchingIds store D T
      = (store.filter (delMatch D T)).map Point.id := by
    unfold scrollMatchingIds
    rw [htake]
  have hcont : ∀ p ∈ store,
      (((store.filter (delMatch D T)).map Point.id).contains p.id)
        = delMatch D T p := by
    intro p hp
    cases hmp : delMatch D T p with
    | true =>
      have hmem : p.id ∈ (store.filter (delMatch D T)).map Point.id :=
        List.mem_map.mpr ⟨p, List.mem_filter.mpr ⟨hp, hmp⟩, rfl⟩
      simpa using hmem
    | false =>
      by_contra hne
      have hmem : p.id ∈ (store.filter (delMatch D T)).map Point.id := by
        cases hcc : (((store.filter (delMatch D T)).map Point.id).contains p.id) with
        | true => simpa using hcc
        | false => exact absurd hcc (by simpa [hmp] using hne)
      obtain ⟨q, hq, hqid⟩ := List.mem_map.mp hmem
      have hq' : q ∈ store := List.mem_of_mem_filter hq
      have : q = p := List.inj_on_of_nodup_map hnodup hq' hp hqid
      rw [this] at hq
      have := (List.mem_filter.mp hq).2
      rw [hmp] at this
      cases this
  unfold delete_document_vectors
  rw [hids]
  constructor
  · simp
  · apply List.filter_congr
    intro p hp
    rw [hcont p hp]

/-- Witness for C8 amended at a three-point store holding two tenants and
two documents: exactly the matching point is removed, the others stay,
and the count is 1. -/
theorem delete_document_vectors_precise_below_cap_witness :
    (delete_document_vectors
        [⟨1, [], ⟨"d1", "u1", "n", "t", 0, 0⟩⟩,
         ⟨2, [], ⟨"d1", "u2", "n", "t", 0, 0⟩⟩,
         ⟨3, [], ⟨"d2", "u1", "n", "t", 1, 0⟩⟩] "d1" "u1").2
      = ([⟨1, [], ⟨"d1", "u1", "n", "t", 0, 0⟩⟩,
          ⟨2, [], ⟨"d1", "u2", "n", "t", 0, 0⟩⟩,
          ⟨3, [], ⟨"d2", "u1", "n", "t", 1, 0⟩⟩].filter
            (delMatch "d1" "u1")).length ∧
    (delete_document_vectors
        [⟨1, [], ⟨"d1", "u1", "n", "t", 0, 0⟩⟩,
         ⟨2, [], ⟨"d1", "u2", "n", "t", 0, 0⟩⟩,
         ⟨3, [], ⟨"d2", "u1", "n", "t", 1, 0⟩⟩] "d1" "u1").1
      = [⟨1, [], ⟨"d1", "u1", "n", "t", 0, 0⟩⟩,
         ⟨2, [], ⟨"d1", "u2", "n", "t", 0, 0⟩⟩,
         ⟨3, [], ⟨"d2", "u1", "n", "t", 1, 0⟩⟩].filter
            (fun p => !(delMatch "d1" "u1" p)) :=
  delete_document_vectors_precise_below_cap _ "d1" "u1" (by decide) (by decide)

/-- Counterexample for C8 as frozen: with 10,001 matching points the
scroll cap (`limit=10000`) truncates the scan, so the call does not
remove all points matching the pair — the point with id 10000 still
matches `(document_id == d AND user_id == u)` yet survives the deletion,
and the returned count is 10,000, not 10,001. -/
theorem delete_document_vectors_cap_counterexample :
    (⟨10000, [], ⟨"d", "u", "n", "t", 10000, 0⟩⟩ : Point) ∈
      (delete_document_vectors bigStore "d" "u").1 ∧
    delMatch "d" "u" ⟨10000, [], ⟨"d", "u", "n", "t", 10000, 0⟩⟩ = true ∧
    (delete_document_vectors bigStore "d" "u").2 = 10000 ∧
    bigStore.length = 10001 := by
  have hfilter : bigStore.filter (delMatch "d" "u") = bigStore := by
    rw [List.filter_eq_self]
    intro p hp
    obtain ⟨i, _, rfl⟩ := List.mem_map.mp hp
    simp [delMatch]
  have hids : scrollMatchingIds bigStore "d" "u" = List.range 10000 := by
    unfold scrollMatchingIds
    rw [hfilter]
    unfold bigStore
    rw [← List.map_take, List.take_range]
    rw [List.map_map]
    have hmin : (10000 : Nat) ⊓ 10001 = 10000 := by decide
    rw [hmin]
    exact List.map_id'' (fun x => rfl) (List.range 10000)
  refine ⟨?_, by simp [delMatch], ?_, by simp [bigStore]⟩
  · unfold delete_document_vectors
    rw [hids]
    rw [List.mem_filter]
    constructor
    · unfold bigStore
      exact List.mem_map.mpr ⟨10000, by simp, rfl⟩
    · simp
  · unfold delete_document_vectors
    rw [hids]
    simp

/-! ## C5 — retry bound under a permanently warming-up provider -/

/-- C5: against a provider that always signals model warming up,
`get_embeddings` makes exactly 3 attempts and then raises a terminal
retry error — never an infinite loop. The sleep trace (tenths of a
second) is `[200, 40, 200, 40, 200]`: each attempt waits the fixed 20 s
warm-up cooldown before raising, and the exponential backoff used for
transient failures (starting at 4 s, capped at 10 s) is additionally
waited between attempts, the cooldown not being counted against it. -/
theorem get_embeddings_warmup_three_attempts
    (texts : List String) (h : texts ≠ []) :
    get_embeddings env503 texts =
      (Except.error
        "RetryError: Embedding generation failed: Model is loading, retrying...",
       [200, 40, 200, 40, 200], 3) := by
  cases texts with
  | nil => exact absurd rfl h
  | cons t ts =>
    have hattempt : getEmbeddingsAttempt env503 (t :: ts) =
        (Except.error "Embedding generation failed: Model is loading, retrying...",
         [200]) := by
      simp [getEmbeddingsAttempt, embLoop, env503]
    simp [get_embeddings, hattempt, backoffWait]

/-- Witness for C5 at a singleton text list. -/
theorem get_embeddings_warmup_three_attempts_witness :
    get_embeddings env503 ["hello"] =
      (Except.error
        "RetryError: Embedding generation failed: Model is loading, retrying...",
       [200, 40, 200, 40, 200], 3) :=
  get_embeddings_warmup_three_attempts ["hello"] (by decide)

/-! ## C6 — batching layout of get_batch_embeddings -/

/-- Pacing sleeps are 0.1 s, never the 1 s inter-group delay. -/
theorem embPaceLog_count_ten (ts : List String) : (embPaceLog ts).count 10 = 0 := by
  unfold embPaceLog
  split <;> simp [List.count_replicate]

/-- Per-text loop under a fully successful environment: one vector per
text, in order, with the pacing trace. -/
theorem embLoop_envOk (f : String → Vec) (m : Bool) :
    ∀ (ts : List String), (∀ t ∈ ts, f t ≠ []) →
      embLoop (envOk f) m ts =
        (Except.ok (ts.map f), if m then List.replicate ts.length 1 else []) := by
  intro ts
  induction ts with
  | nil => intro _; cases m <;> simp [embLoop]
  | cons t ts ih =>
    intro hf
    have hft : f t ≠ [] := hf t (List.mem_cons_self t ts)
    obtain ⟨a, as, hfa⟩ := List.exists_cons_of_ne_nil hft
    have hrest := ih (fun x hx => hf x (List.mem_cons_of_mem t hx))
    simp only [embLoop, envOk, hfa, parseBody, hrest]
    cases m <;> simp [List.replicate_succ, hfa]

/-- One `get_embeddings` attempt under a fully successful environment. -/
theorem getEmbeddingsAttempt_envOk (f : String → Vec) (ts : List String)
    (hf : ∀ t ∈ ts, f t ≠ []) :
    getEmbeddingsAttempt (envOk f) ts = (Except.ok (ts.map f), embPaceLog ts) := by
  cases ts with
  | nil => simp [getEmbeddingsAttempt, embPaceLog]
  | cons t ts =>
    show embLoop (envOk f) (decide ((t :: ts).length > 1)) (t :: ts)
        = (Except.ok ((t :: ts).map f), embPaceLog (t :: ts))
    rw [embLoop_envOk f _ _ hf]
    by_cases hts : ts = []
    · subst hts
      simp [embPaceLog]
    · have hlen : (t :: ts).length > 1 := by
        simp only [List.length_cons]
        have := List.length_pos.mpr hts
        omega
      simp [embPaceLog, hlen]

/-- The retried `get_embeddings` under a fully successful environment:
the first attempt succeeds, so exactly one attempt is made. -/
theorem get_embeddings_envOk (f : String → Vec) (ts : List String)
    (hf : ∀ t ∈ ts, f t ≠ []) :
    get_embeddings (envOk f) ts = (Except.ok (ts.map f), embPaceLog ts, 1) := by
  rw [get_embeddings, getEmbeddingsAttempt_envOk f ts hf]

/-- Group count of the batching loop when one group suffices. -/
theorem div_one_group (n b : Nat) (h1 : 1 ≤ n) (h2 : n ≤ b + 1) :
    (n + b) / (b + 1) = 1 := by
  have he : n + b = (n - 1) + (b + 1) := by omega
  rw [he, Nat.add_div_right _ (Nat.succ_pos b), Nat.div_eq_of_lt (by omega)]

/-- Group count of the batching loop: one full group peels off. -/
theorem div_group_step (n b : Nat) (h : b + 1 < n) :
    (n + b) / (b + 1) = ((n - (b + 1)) + b) / (b + 1) + 1 := by
  have he : n + b = ((n - (b + 1)) + b) + (b + 1) := by omega
  rw [he, Nat.add_div_right _ (Nat.succ_pos b)]

/-- Batching loop under a fully successful environment: the result is one
vector per text in input order, the number of group calls is
`ceil(N / (bp + 1))` written as `(N + bp) / (bp + 1)`, and the sleep
trace contains exactly one 1 s inter-group delay per group boundary —
one fewer than the number of groups. -/
theorem batchLoop_envOk (f : String → Vec) (bp : Nat) (texts : List String)
    (hf : ∀ t ∈ texts, f t ≠ []) :
    (batchLoop (get_embeddings (envOk f)) bp texts).1
        = Except.ok (texts.map f) ∧
    (batchLoop (get_embeddings (envOk f)) bp texts).2.2
        = (texts.length + bp) / (bp + 1) ∧
    ((batchLoop (get_embeddings (envOk f)) bp texts).2.1).count 10
        = (batchLoop (get_embeddings (envOk f)) bp texts).2.2 - 1 := by
  match texts with
  | [] =>
    have hdiv : bp / (bp + 1) = 0 := Nat.div_eq_of_lt (by omega)
    simp [batchLoop, hdiv]
  | t :: ts =>
    have hbatch := get_embeddings_envOk f ((t :: ts).take (bp + 1))
      (fun x hx => hf x (List.mem_of_mem_take hx))
    by_cases hrest : (t :: ts).drop (bp + 1) = []
    · have hlen : (t :: ts).length ≤ bp + 1 := by
        have hld := congrArg List.length hrest
        simp only [List.length_drop, List.length_nil] at hld
        omega
      have htake : (t :: ts).take (bp + 1) = t :: ts :=
        List.take_of_length_le hlen
      have hdiv : ((t :: ts).length + bp) / (bp + 1) = 1 :=
        div_one_group _ _ (by simp) hlen
      rw [htake] at hbatch
      rw [batchLoop.eq_def]
      simp only [htake, hrest, hbatch, List.isEmpty_nil, if_true]
      exact ⟨by simp, hdiv.symm, by simp [embPaceLog_count_ten]⟩
    · have hlen : bp + 1 < (t :: ts).length := by
        by_contra hc
        exact hrest (List.drop_eq_nil_of_le (by omega))
      have ih := batchLoop_envOk f bp ((t :: ts).drop (bp + 1))
        (fun x hx => hf x (List.mem_of_mem_drop hx))
      rcases hr : batchLoop (get_embeddings (envOk f)) bp ((t :: ts).drop (bp + 1))
        with ⟨res, log2, g⟩
      rw [hr] at ih
      have hres : res = Except.ok (((t :: ts).drop (bp + 1)).map f) := ih.1
      have hg : g = (((t :: ts).drop (bp + 1)).length + bp) / (bp + 1) := ih.2.1
      have hcount : log2.count 10 = g - 1 := ih.2.2
      have hg1 : 1 ≤ g := by
        rw [hg, Nat.one_le_div_iff (Nat.succ_pos bp)]
        simp only [List.length_drop]
        omega
      have hisEmpty : ((t :: ts).drop (bp + 1)).isEmpty = false := by
        cases hdd : (t :: ts).drop (bp + 1) with
        | nil => exact absurd hdd hrest
        | cons x xs => rfl
      rw [batchLoop.eq_def]
      simp only [hbatch, hr, hisEmpty, Bool.false_eq_true, if_false]
      refine ⟨?_, ?_, ?_⟩
      · simp only [hres, Except.map]
        rw [← List.map_append, List.take_append_drop]
      · rw [hg, div_group_step _ _ hlen]
        congr 1
        simp only [List.length_drop]
      · rw [List.count_append, List.count_append, embPaceLog_count_ten, hcount]
        simp
        omega
termination_by texts.length
decreasing_by simp [List.length_drop]; omega

/-- C6: for every list of N texts and positive batch size B,
`get_batch_embeddings` partitions the input into `ceil(N/B)` groups
handed to `get_embeddings` strictly sequentially, returns exactly N
vectors concatenated in input order (the i-th vector embeds the i-th
text), and its sleep trace contains exactly `ceil(N/B) - 1` of the 1 s
(= 10 tenths) inter-group pacing delays — one per group boundary, none
after the last group. Stated under a provider environment in which every
text embeds successfully. -/
theorem get_batch_embeddings_layout (f : String → Vec) (texts : List String)
    (batch_size : Nat) (hb : 0 < batch_size) (hf : ∀ t ∈ texts, f t ≠ []) :
    (get_batch_embeddings (envOk f) texts batch_size).1
        = Except.ok (texts.map f) ∧
    (texts.map f).length = texts.length ∧
    (get_batch_embeddings (envOk f) texts batch_size).2.2
        = (texts.length + batch_size - 1) / batch_size ∧
    ((get_batch_embeddings (envOk f) texts batch_size).2.1).count 10
        = (get_batch_embeddings (envOk f) texts batch_size).2.2 - 1 := by
  cases batch_size with
  | zero => omega
  | succ bp =>
    have h := batchLoop_envOk f bp texts hf
    simp only [get_batch_embeddings]
    refine ⟨h.1, by simp, ?_, h.2.2⟩
    have harith : texts.length + (bp + 1) - 1 = texts.length + bp := by omega
    rw [h.2.1, harith]

/-- Witness for C6: three texts in batches of two — two groups, one
inter-group delay, three vectors in order. -/
theorem get_batch_embeddings_layout_witness :
    (get_batch_embeddings (envOk (fun _ => [1])) ["t1", "t2", "t3"] 2).1
        = Except.ok [[1], [1], [1]] ∧
    (get_batch_embeddings (envOk (fun _ => [1])) ["t1", "t2", "t3"] 2).2.2 = 2 ∧
    ((get_batch_embeddings (envOk (fun _ => [1])) ["t1", "t2", "t3"] 2).2.1).count 10
        = 1 := by
  have h := get_batch_embeddings_layout (fun _ => [1]) ["t1", "t2", "t3"] 2
    (by decide) (fun t _ => List.cons_ne_nil 1 [])
  refine ⟨by simpa using h.1, by simpa using h.2.2.1, ?_⟩
  have hc := h.2.2.2
  rw [h.2.2.1] at hc
  simpa using hc

/-! ## C3 — absence of a per-group count check in get_batch_embeddings -/

/-- Counterexample for C3: the batching loop of `get_batch_embeddings`
(embedding.py lines 182-193) contains no count check at all — handed a
group call that returns zero vectors for one input text, it returns the
empty result successfully instead of failing loudly; nothing named
`EmbeddingCountMismatchError` exists anywhere in the codebase. (In the
composed source a per-group mismatch cannot arise, because
`get_embeddings` appends exactly one vector per text on success; the
point refuted is the existence of the claimed check inside
`embed_batched`.) -/
theorem batchLoop_silently_accepts_group_mismatch :
    batchLoop (fun _ => (Except.ok [], [], 1)) 9 ["text"]
      = (Except.ok [], [], 1) := by
  rw [batchLoop.eq_def]
  simp

/-- C3 amended: `get_batch_embeddings` itself performs no per-group count
check; the only count check in the pipeline is the aggregate comparison
in `upload_document` (upload.py lines 56-57), which fails the ingestion
attempt loudly — status `error`, message recorded, failure response —
with a generic `Exception` whenever the total number of embeddings
differs from the number of chunks. -/
theorem upload_document_aggregate_mismatch_fails
    (env : UploadEnv) (doc : DocRecord) (chunks : List String)
    (embeddings : List Vec)
    (hown : env.userOwns = true)
    (hmeta : env.metadata ≠ none)
    (hdl : ∃ p, env.download = Except.ok p)
    (hpr : env.processResult = Except.ok chunks)
    (hch : chunks ≠ [])
    (hemb : env.embedResult = Except.ok embeddings)
    (hmm : embeddings.length ≠ chunks.length) :
    (upload_document env doc).doc.status = "error" ∧
    (upload_document env doc).doc.error_message
        = some "Mismatch between number of chunks and embeddings" ∧
    (upload_document env doc).outcome
        = UploadOutcome.response false "Failed to process document" := by
  obtain ⟨p, hp⟩ := hdl
  obtain ⟨md, hmd⟩ := Option.ne_none_iff_exists'.mp hmeta
  obtain ⟨nm, ft⟩ := md
  have hisEmpty : chunks.isEmpty = false := by
    cases chunks with
    | nil => exact absurd rfl hch
    | cons x xs => rfl
  have hne : (embeddings.length != chunks.length) = true := bne_iff_ne.mpr hmm
  unfold upload_document
  simp only [hown, hmd, hp, hpr, hemb, hisEmpty, hne, Bool.not_true,
    Bool.false_eq_true, if_false, if_true]
  simp [uploadFail, update_document_status]

/-- Witness for C3 amended: one chunk but zero embeddings — the attempt
ends in status `error` with the mismatch message. -/
theorem upload_document_aggregate_mismatch_fails_witness :
    (upload_document
        ⟨true, some ("doc.pdf", "pdf"), Except.ok "/tmp/x",
         Except.ok ["a chunk of text"], Except.ok [], Except.ok 0⟩
        ⟨"received", none⟩).doc.status = "error" ∧
    (upload_document
        ⟨true, some ("doc.pdf", "pdf"), Except.ok "/tmp/x",
         Except.ok ["a chunk of text"], Except.ok [], Except.ok 0⟩
        ⟨"received", none⟩).doc.error_message
      = some "Mismatch between number of chunks and embeddings" ∧
    (upload_document
        ⟨true, some ("doc.pdf", "pdf"), Except.ok "/tmp/x",
         Except.ok ["a chunk of text"], Except.ok [], Except.ok 0⟩
        ⟨"received", none⟩).outcome
      = UploadOutcome.response false "Failed to process document" :=
  upload_document_aggregate_mismatch_fails _ _ ["a chunk of text"] []
    rfl (by simp) ⟨"/tmp/x", rfl⟩ rfl (by simp) rfl (by simp)

/-! ## C2 — status bookkeeping and temp-file cleanup of upload_document -/

/-- C2: for every ingestion attempt that has entered the processing state
(ownership verified, metadata found), the document status is updated to
reflect the outcome — `completed` on success; `error` together with a
non-empty `error_message` on any failure of download, extraction,
chunking, embedding, the count check, or the store write, however late
the failure is thrown — and no downloaded temporary file remains on any
exit path. The `hmsg` hypothesis records that every service wraps its
raised errors in a non-empty message (see the model comment). -/
theorem upload_document_bookkeeping (env : UploadEnv) (doc : DocRecord)
    (hown : env.userOwns = true)
    (hmeta : env.metadata ≠ none)
    (hmsg : (∀ e, env.download = Except.error e → e ≠ "") ∧
            (∀ e, env.processResult = Except.error e → e ≠ "") ∧
            (∀ e, env.embedResult = Except.error e → e ≠ "") ∧
            (∀ e, env.storeResult = Except.error e → e ≠ "")) :
    (upload_document env doc).tempFileRemains = false ∧
    (env.pipelineOk →
      (upload_document env doc).doc.status = "completed" ∧
      ∃ m, (upload_document env doc).outcome = UploadOutcome.response true m) ∧
    (¬env.pipelineOk →
      (upload_document env doc).doc.status = "error" ∧
      ∃ m, (upload_document env doc).doc.error_message = some m ∧ m ≠ "" ∧
        (upload_document env doc).outcome
          = UploadOutcome.response false "Failed to process document") := by
  obtain ⟨own, meta, dl, pr, er, sr⟩ := env
  obtain ⟨hm1, hm2, hm3, hm4⟩ := hmsg
  simp only at hown
  subst hown
  obtain ⟨md, hmd⟩ := Option.ne_none_iff_exists'.mp hmeta
  simp only at hmd
  subst hmd
  obtain ⟨nm, ft⟩ := md
  simp only [UploadEnv.pipelineOk]
  cases dl with
  | error e =>
    have hne : e ≠ "" := hm1 e rfl
    refine ⟨rfl, ?_, ?_⟩
    · rintro ⟨⟨p, hp⟩, -⟩
      exact Except.noConfusion hp
    · intro _
      refine ⟨rfl, e, ?_, hne, rfl⟩
      simp [upload_document, uploadFail, update_document_status,
        beq_eq_false_iff_ne.mpr hne]
  | ok p =>
    cases pr with
    | error e =>
      have hne : e ≠ "" := hm2 e rfl
      refine ⟨rfl, ?_, ?_⟩
      · rintro ⟨-, ⟨chunks, hc, -⟩, -⟩
        exact Except.noConfusion hc
      · intro _
        refine ⟨rfl, e, ?_, hne, rfl⟩
        simp [upload_document, uploadFail, update_document_status,
          beq_eq_false_iff_ne.mpr hne]
    | ok chunks =>
      cases hch : chunks.isEmpty with
      | true =>
        have hcnil : chunks = [] := by
          cases chunks with
          | nil => rfl
          | cons x xs => simp at hch
        subst hcnil
        refine ⟨?_, ?_, ?_⟩
        · simp [upload_document, uploadFail]
        · rintro ⟨-, ⟨chunks', hc, hcne, -⟩, -⟩
          rw [Except.ok.injEq] at hc
          exact (hcne hc.symm).elim
        · intro _
          refine ⟨?_, "No text chunks could be extracted from the document",
            ?_, by decide, ?_⟩ <;>
            simp [upload_document, uploadFail, update_document_status]
      | false =>
        cases er with
        | error e =>
          have hne : e ≠ "" := hm3 e rfl
          refine ⟨?_, ?_, ?_⟩
          · simp [upload_document, uploadFail, hch]
          · rintro ⟨-, ⟨chunks', hc, -, embeddings', he, -⟩, -⟩
            exact Except.noConfusion he
          · intro _
            refine ⟨?_, e, ?_, hne, ?_⟩ <;>
              simp [upload_document, uploadFail, update_document_status, hch,
                beq_eq_false_iff_ne.mpr hne]
        | ok embeddings =>
          cases hbe : (embeddings.length != chunks.length) with
          | true =>
            refine ⟨?_, ?_, ?_⟩
            · simp [upload_document, uploadFail, hch, hbe]
            · rintro ⟨-, ⟨chunks', hc, -, embeddings', he, hlen⟩, -⟩
              rw [Except.ok.injEq] at hc he
              rw [bne_iff_ne] at hbe
              rw [← hc, ← he] at hlen
              exact (hbe hlen).elim
            · intro _
              refine ⟨?_, "Mismatch between number of chunks and embeddings",
                ?_, by decide, ?_⟩ <;>
                simp [upload_document, uploadFail, update_document_status, hch, hbe]
          | false =>
            cases sr with
            | error e =>
              have hne : e ≠ "" := hm4 e rfl
              refine ⟨?_, ?_, ?_⟩
              · simp [upload_document, uploadFail, hch, hbe]
              · rintro ⟨-, -, ⟨n, hn⟩⟩
                exact Except.noConfusion hn
              · intro _
                refine ⟨?_, e, ?_, hne, ?_⟩ <;>
                  simp [upload_document, uploadFail, update_document_status, hch,
                    hbe, beq_eq_false_iff_ne.mpr hne]
            | ok n =>
              refine ⟨?_, ?_, ?_⟩
              · simp [upload_document, hch, hbe]
              · intro _
                constructor
                · simp [upload_document, update_document_status, hch, hbe]
                · exact ⟨"Document processed successfully. " ++ toString n
                      ++ " chunks stored.",
                    by simp [upload_document, hch, hbe]⟩
              · intro hno
                refine absurd ?_ hno
                rw [bne_eq_false_iff_eq] at hbe
                exact ⟨⟨p, rfl⟩,
                  ⟨chunks, rfl, by simpa using hch, embeddings, rfl, hbe⟩,
                  ⟨n, rfl⟩⟩

/-- Witness for C2: a late failure (the vector-store write raises after
download, chunking and embedding all succeeded) still leaves no
temporary file behind, and the status records the error. -/
theorem upload_document_bookkeeping_witness :
    (upload_document
        ⟨true, some ("doc.pdf", "pdf"), Except.ok "/tmp/x",
         Except.ok ["chunk"], Except.ok [[1]],
         Except.error "Failed to store document chunks: boom"⟩
        ⟨"received", none⟩).tempFileRemains = false :=
  (upload_document_bookkeeping
    ⟨true, some ("doc.pdf", "pdf"), Except.ok "/tmp/x",
     Except.ok ["chunk"], Except.ok [[1]],
     Except.error "Failed to store document chunks: boom"⟩
    ⟨"received", none⟩ rfl (by simp)
    ⟨fun _ he => Except.noConfusion he,
     fun _ he => Except.noConfusion he,
     fun _ he => Except.noConfusion he,
     by intro e he; injection he with h; subst h; decide⟩).1

/-! ## C7 — chunk filtering, failure modes and chunk_index layout -/

/-- C7: for every splitter output and every input text, the chunker
returns only segments whose trimmed length is strictly greater than 50
characters; `process_document` fails with an error when the input text
is empty (after stripping) and when every segment was filtered out, and
succeeds exactly with the filtered chunk list otherwise; and the
`chunk_index` values stored with the points are the contiguous integers
0, 1, 2, ... in order. -/
theorem chunker_filter_and_contiguous_indexes
    (split : String → List String) (text : String) :
    (∀ c ∈ chunk_text split text, c.trim.length > 50) ∧
    (text.trim = "" →
      process_document split text
        = Except.error "No text could be extracted from the document") ∧
    (text.trim ≠ "" → chunk_text split text = [] →
      process_document split text
        = Except.error "No valid chunks could be created from the document") ∧
    (∀ chunks, process_document split text = Except.ok chunks →
      chunks = chunk_text split text ∧ chunks ≠ []) ∧
    (∀ (mkId : Nat → Nat) (now : Nat) (did uid dname : String)
        (chunks : List String) (embeddings : List Vec),
      (storePoints mkId now did uid dname chunks embeddings).map
          (fun p => p.payload.chunk_index)
        = List.range (min chunks.length embeddings.length)) := by
  refine ⟨?_, ?_, ?_, ?_, ?_⟩
  · intro c hc
    have := (List.mem_filter.mp hc).2
    simpa using this
  · intro ht
    simp [process_document, ht]
  · intro ht hc
    rw [process_document, if_neg (by simpa using ht), hc]
  · intro chunks hok
    rw [process_document] at hok
    by_cases ht : text.trim = ""
    · rw [if_pos (by simpa using ht)] at hok
      exact Except.noConfusion hok
    · rw [if_neg (by simpa using ht)] at hok
      cases hc : chunk_text split text with
      | nil => rw [hc] at hok; exact Except.noConfusion hok
      | cons x xs =>
        rw [hc] at hok
        rw [Except.ok.injEq] at hok
        exact ⟨hok.symm ▸ rfl, by rw [← hok]; simp⟩
  · intro mkId now did uid dname chunks embeddings
    unfold storePoints
    rw [List.map_map]
    have : ((fun p => p.payload.chunk_index) ∘ fun (ie : Nat × (String × Vec)) =>
        (⟨mkId ie.1, ie.2.2, ⟨did, uid, dname, ie.2.1, ie.1, now⟩⟩ : Point))
        = Prod.fst := rfl
    rw [this, List.enum_map_fst, List.length_zip]

/-- Witness for C7: a concrete splitter output with one long and one
short segment — only the long one survives, and the stored indexes are
`[0]`. -/
theorem chunker_filter_and_contiguous_indexes_witness :
    (String.replicate 60 (Char.ofNat 97) ∈
      chunk_text (fun _ => [String.replicate 60 (Char.ofNat 97), "short"]) "input text" →
        (String.replicate 60 (Char.ofNat 97)).trim.length > 50) ∧
    ("".trim = "" →
      process_document (fun _ => []) ""
        = Except.error "No text could be extracted from the document") := by
  have h1 := chunker_filter_and_contiguous_indexes
    (fun _ => [String.replicate 60 (Char.ofNat 97), "short"]) "input text"
  have h2 := chunker_filter_and_contiguous_indexes (fun _ => []) ""
  exact ⟨fun hm => h1.1 _ hm, fun ht => h2.2.1 ht⟩

end DocChat
